import Mathlib

/-!
Shallow embedding of the poe2filter sync pipeline (src/src/main.rs and
src/src/github.rs).

Strings are modelled as lists of characters (`Str`), file contents as lists
of bytes (`Bytes`).  The network is an oracle (`Remote`) mapping request URLs
to already-decoded responses; a transport failure or an undecodable body is an
`Err` in the oracle's answer.  Side effects (HTTP requests, file writes, the
final watermark-store save) are recorded in an explicit trace of `Eff`
values returned alongside each result, mirroring the order in which the Rust
code performs them.
-/

namespace Poe2Filter

abbrev Str := List Char

abbrev Bytes := List Nat

/-- Error taxonomy of the pipeline, abstracting the `eyre` error values the
Rust code produces. -/
inductive Err where
  /-- `async_main`: "all arguments must be in the form source:arg" -/
  | malformedSource
  /-- `async_main`: "source type must be github" -/
  | badSourceType
  /-- github.rs `get`: "github source must be either github:owner/repo or github:owner/repo/branch" -/
  | malformedDescriptor
  /-- main.rs `get_github`: "no release could be found" -/
  | noRelease
  /-- `error_for_status` on a non-success HTTP status -/
  | httpStatus (code : Nat)
  /-- response body failed to decode as the expected JSON shape -/
  | protocolError
  /-- zip archive could not be opened, or a named entry could not be read -/
  | archiveError
  deriving DecidableEq

/-- main.rs / github.rs `ReleaseInfo` (deserialized GitHub release). -/
structure ReleaseInfo where
  zipball_url : Str
  tag_name : Str
  body : Option Str
  deriving DecidableEq

/-- github.rs `CommitMeta`. -/
structure CommitMeta where
  message : Str
  deriving DecidableEq

/-- github.rs `CommitInfo`. -/
structure CommitInfo where
  sha : Str
  commit : CommitMeta
  deriving DecidableEq

/-- github.rs `BranchInfo` (deserialized GitHub branch). -/
structure BranchInfo where
  commit : CommitInfo
  deriving DecidableEq

/-- github.rs `VersionInfo` (declared in the crate root, consumed by
github.rs; field shape read off github.rs's constructors). -/
structure VersionInfo where
  zipball_url : Str
  watermark : Str
  body : Option Str
  deriving DecidableEq

/-- One entry of a downloaded zip archive: its name in the archive and its
contents. -/
structure ZipEntry where
  name : Str
  data : Bytes
  deriving DecidableEq

/-- A completed file write: `fs::OpenOptions::new().create(true).truncate(true)
.write(true)` followed by `write_all`, i.e. the file at `path` now holds
exactly `data` (created if absent, truncated if present). -/
structure FileWrite where
  path : Str
  data : Bytes
  deriving DecidableEq

/-- The in-memory watermark store `Globals::versions`
(`HashMap<String, String>`), modelled as an association list. -/
abbrev VersionsMap := List (Str × Str)

/-- Observable side effects, in program order. -/
inductive Eff where
  /-- one `client.get(url)` round trip (API call or archive download) -/
  | httpGet (url : Str)
  /-- one filter file written into the game directory -/
  | writeFile (path : Str) (data : Bytes)
  /-- the watermark store serialized and written to `filter_watermarks.json` -/
  | saveStore (versions : VersionsMap)
  deriving DecidableEq

/-- The remote world: decoded answers per request URL.  `releasesAt` models
a GET of a `/releases` URL decoded as `Vec<ReleaseInfo>`, `branchAt` a GET of
a `/branches/{branch}` URL decoded as `BranchInfo`, `downloadAt` a zipball
download together with `zip::ZipArchive::new` opening it. -/
structure Remote where
  releasesAt : Str → Except Err (List ReleaseInfo)
  branchAt : Str → Except Err BranchInfo
  downloadAt : Str → Except Err (List ZipEntry)

instance exceptDecEq {e a : Type} [DecidableEq e] [DecidableEq a] : DecidableEq (Except e a) := fun x y =>
  match x, y with
  | .error u, .error v =>
    if h : u = v then .isTrue (by rw [h]) else .isFalse (fun hc => by injection hc; exact h (by assumption))
  | .ok u, .ok v =>
    if h : u = v then .isTrue (by rw [h]) else .isFalse (fun hc => by injection hc; exact h (by assumption))
  | .error _, .ok _ => .isFalse (fun hc => by injection hc)
  | .ok _, .error _ => .isFalse (fun hc => by injection hc)

/-! ## String helpers -/

/-- Rust `str::split(c)`: full split on a separator character, keeping empty
segments (`"a//b"` gives `["a", "", "b"]`, `""` gives `[""]`).  This is the
behaviour of `crate::split` as used by github.rs line 45.

Modelled from the spec: `crate::split` is declared in the crate root, which is
absent from src (the main.rs in src predates github.rs — it lacks the `split`
and `VersionInfo` items github.rs imports); spec section 4.2 describes its use as
splitting the payload into '/'-separated path segments. -/
def split (s : Str) (c : Char) : List Str :=
  match s with
  | [] => [[]]
  | x :: xs =>
    if x = c then [] :: split xs c
    else
      match split xs c with
      | [] => [[x]]
      | y :: ys => (x :: y) :: ys

/-- `source.find(':')` followed by `split_at(index)` and `&value[1..]`
(main.rs lines 114-117): locate the first occurrence of `c`; `none` when `c`
does not occur, otherwise the text before it and the text after it (the
separator itself dropped). -/
def splitAtFirst (c : Char) : Str → Option (Str × Str)
  | [] => none
  | x :: xs =>
    if x = c then some ([], xs)
    else (splitAtFirst c xs).map (fun p => (x :: p.1, p.2))

/-- Alias expansion (main.rs lines 108-112). -/
def expandAlias (s : Str) : Str :=
  if s = ("neversink-lite").data then ("github:NeverSinkDev/NeverSink-PoE2litefilter").data
  else if s = ("cdrg").data then ("github:cdrg/cdr-poe2filter").data
  else s

/-- `HashMap::get` on the watermark store. -/
def lookupV : VersionsMap → Str → Option Str
  | [], _ => none
  | (k, v) :: rest, key => if k = key then some v else lookupV rest key

/-- `HashMap::insert` on the watermark store (replace an existing key's value,
otherwise add the pair). -/
def insertV : VersionsMap → Str → Str → VersionsMap
  | [], key, val => [(key, val)]
  | (k, v) :: rest, key, val =>
    if k = key then (key, val) :: rest else (k, v) :: insertV rest key val

/-! ## Rust `Path` semantics for zip entry names

`Path::file_name` and `Path::extension` on Unix, restricted to relative-ish
entry names as they occur inside archives: components are the '/'-separated
segments with empty and `"."` segments dropped; `file_name` is the last
component unless it is `".."`; `extension` is the part of the file name after
its last `'.'`, none when the file name has no `'.'` or starts with its only
`'.'`. -/

/-- `Path::file_name` (used at main.rs line 212 / github.rs line 91). -/
def pathFileName (s : Str) : Option Str :=
  match ((split s '/').filter (fun comp => decide (comp ≠ [] ∧ comp ≠ (".").data))).getLast? with
  | none => none
  | some last => if last = ("..").data then none else some last

/-- `Path::extension` (used at main.rs line 202 / github.rs line 81). -/
def pathExtension (s : Str) : Option Str :=
  (pathFileName s).bind (fun n =>
    match split n '.' with
    | [] => none
    | [_] => none
    | p :: q :: rest =>
      if p = [] ∧ rest = [] then none
      else some ((q :: rest).getLastD []))

/-- The fixed marker extension (`let filter = OsString::from("filter")`). -/
def markerExt : Str := ("filter").data

/-! ## Archive extraction loop

main.rs lines 196-230 and github.rs lines 75-109 (the two copies are
textually identical in the source).  The entry names are snapshotted up front
(`zipfile.file_names().collect()`), then each name is processed: extension
check, `by_name` lookup (an entry the archive cannot serve is an error),
read into the reused buffer, base-name derivation (skip on failure), write. -/

/-- `zipfile.by_name(&filename)`: with duplicate names the archive serves one
entry per name; modelled as the first entry carrying the name. -/
def byName (entries : List ZipEntry) (n : Str) : Option ZipEntry :=
  entries.find? (fun e => e.name == n)

/-- The body of the extraction loop, over the snapshotted name list.
Returns the file writes performed (in order) and the loop's outcome; on an
error the writes already performed stay in the list. -/
def installFromNames (dir : Str) (entries : List ZipEntry) : List Str → List FileWrite × Except Err Unit
  | [] => ([], .ok ())
  | n :: rest =>
    if pathExtension n = some markerExt then
      match byName entries n with
      | none => ([], .error .archiveError)
      | some e =>
        match pathFileName n with
        | none => installFromNames dir entries rest
        | some base =>
          let w : FileWrite := ⟨dir ++ '/' :: base, e.data⟩
          let (ws, r) := installFromNames dir entries rest
          (w :: ws, r)
    else installFromNames dir entries rest

/-- The whole extraction phase: snapshot the names, run the loop. -/
def installFilters (dir : Str) (entries : List ZipEntry) : List FileWrite × Except Err Unit :=
  installFromNames dir entries (entries.map (fun e => e.name))

/-! ## github.rs: the two resolution strategies and `get` -/

/-- URL built at github.rs lines 156-158. -/
def releasesUrl (owner repo : Str) : Str :=
  ("https://api.github.com/repos/").data ++ owner ++ '/' :: repo ++ ("/releases?per_page=1&page=0").data

/-- URL built at github.rs lines 125-127. -/
def branchUrl (owner repo branch : Str) : Str :=
  ("https://api.github.com/repos/").data ++ owner ++ '/' :: repo ++ ("/branches/").data ++ branch

/-- URL built at github.rs lines 136-139. -/
def archiveUrl (owner repo sha : Str) : Str :=
  ("https://github.com/").data ++ owner ++ '/' :: repo ++ ("/archive/").data ++ sha ++ (".zip").data

/-- github.rs `get_github_release` (lines 148-176): fetch the first page of
releases; an empty list yields `none` ("no artifact", not an error); otherwise
the current release's zipball URL, tag name and body. -/
def get_github_release (remote : Remote) (owner repo : Str) :
    Except Err (Option VersionInfo) × List Eff :=
  let url := releasesUrl owner repo
  match remote.releasesAt url with
  | .error e => (.error e, [.httpGet url])
  | .ok releases =>
    match releases with
    | [] => (.ok none, [.httpGet url])
    | release :: _ =>
      (.ok (some ⟨release.zipball_url, release.tag_name, release.body⟩), [.httpGet url])

/-- github.rs `get_github_branch` (lines 116-146): fetch the named branch
(absence is a transport-level error from `error_for_status`, propagated);
the record's watermark is the head commit sha, the URL the computed archive
URL for that sha, the note the commit message. -/
def get_github_branch (remote : Remote) (owner repo branch : Str) :
    Except Err (Option VersionInfo) × List Eff :=
  let url := branchUrl owner repo branch
  match remote.branchAt url with
  | .error e => (.error e, [.httpGet url])
  | .ok info =>
    (.ok (some ⟨archiveUrl owner repo info.commit.sha, info.commit.sha,
        some info.commit.commit.message⟩), [.httpGet url])

/-- github.rs lines 45-50: the payload is split on '/'; two segments select
the release strategy, three the branch strategy, anything else is a
malformed-descriptor error raised before any request. -/
def resolveValue (remote : Remote) (value : Str) :
    Except Err (Option VersionInfo) × List Eff :=
  match split value '/' with
  | [owner, repo] => get_github_release remote owner repo
  | [owner, repo, branch] => get_github_branch remote owner repo branch
  | _ => (.error .malformedDescriptor, [])

/-- github.rs `get` (lines 40-114): resolve, then compare against the stored
watermark, then download and extract when changed.  `Ok(None)` is returned
both when resolution found no artifact and when the stored watermark equals
the resolved one. -/
def get (remote : Remote) (dir : Str) (value : Str) (existing : Option Str) :
    Except Err (Option VersionInfo) × List Eff :=
  match resolveValue remote value with
  | (.error e, effs) => (.error e, effs)
  | (.ok none, effs) => (.ok none, effs)
  | (.ok (some release), effs) =>
    if existing = some release.watermark then (.ok none, effs)
    else
      match remote.downloadAt release.zipball_url with
      | .error e => (.error e, effs ++ [.httpGet release.zipball_url])
      | .ok entries =>
        let (ws, r) := installFilters dir entries
        let effs := effs ++ .httpGet release.zipball_url ::
          ws.map (fun w => Eff.writeFile w.path w.data)
        match r with
        | .error e => (.error e, effs)
        | .ok _ => (.ok (some release), effs)

/-! ## main.rs: `get_github` and `async_main` -/

/-- URL built at main.rs lines 154-156 (the whole payload is interpolated
unsplit). -/
def mainReleasesUrl (value : Str) : Str :=
  ("https://api.github.com/repos/").data ++ value ++ ("/releases?per_page=1&page=0").data

/-- main.rs `get_github` (lines 147-235): fetch the first release page — an
empty list here is the error "no release could be found" —, return the tag
unchanged when it equals the stored watermark, otherwise download the zipball
and run the extraction loop; the release tag is returned as the new
watermark.  (The change-log block printed to stderr at lines 177-181 is not
modelled.) -/
def get_github (remote : Remote) (dir : Str) (value : Str) (existing : Option Str) :
    Except Err Str × List Eff :=
  let url := mainReleasesUrl value
  match remote.releasesAt url with
  | .error e => (.error e, [.httpGet url])
  | .ok releases =>
    match releases with
    | [] => (.error .noRelease, [.httpGet url])
    | release :: _ =>
      if existing = some release.tag_name then (.ok release.tag_name, [.httpGet url])
      else
        match remote.downloadAt release.zipball_url with
        | .error e => (.error e, [.httpGet url, .httpGet release.zipball_url])
        | .ok entries =>
          let (ws, r) := installFilters dir entries
          let effs := .httpGet url :: .httpGet release.zipball_url ::
            ws.map (fun w => Eff.writeFile w.path w.data)
          match r with
          | .error e => (.error e, effs)
          | .ok _ => (.ok release.tag_name, effs)

/-- The descriptor-parsing prefix of `async_main`'s loop body (main.rs lines
104-117): alias expansion followed by the split at the first ':'.  (The
UTF-8 check at lines 104-106 cannot fail in the model, whose strings are
already unicode.) -/
def parseDescriptor (s : Str) : Option (Str × Str) :=
  splitAtFirst ':' (expandAlias s)

/-- One iteration of `async_main`'s source loop (main.rs lines 103-131):
parse the descriptor, look up the stored watermark under the full expanded
descriptor string, dispatch on the source type, record the returned watermark
in the in-memory store. -/
def processSource (remote : Remote) (dir : Str) (versions : VersionsMap) (source : Str) :
    Except Err VersionsMap × List Eff :=
  let source := expandAlias source
  match splitAtFirst ':' source with
  | none => (.error .malformedSource, [])
  | some (sourceName, value) =>
    let current := lookupV versions source
    if sourceName = ("github").data then
      match get_github remote dir value current with
      | (.error e, effs) => (.error e, effs)
      | (.ok next, effs) => (.ok (insertV versions source next), effs)
    else (.error .badSourceType, [])

/-- `async_main`'s loop over all sources, threading the in-memory store and
aborting on the first error (the `?` at main.rs line 125). -/
def processSources (remote : Remote) (dir : Str) (versions : VersionsMap) :
    List Str → Except Err VersionsMap × List Eff
  | [] => (.ok versions, [])
  | s :: rest =>
    match processSource remote dir versions s with
    | (.error e, effs) => (.error e, effs)
    | (.ok vs, effs) =>
      let (r, effs2) := processSources remote dir vs rest
      (r, effs ++ effs2)

/-- main.rs `async_main` (lines 100-145) together with the store load in
`Globals::new` (lines 44-51): `disk` is the parsed content of
`filter_watermarks.json` (`none` when the file is missing or corrupt, which
loads as the empty map); the store is saved — by whole-file truncate and
rewrite — only after the loop finished without error, so on an error the
function returns with the disk file untouched. -/
def async_main (remote : Remote) (dir : Str) (disk : Option VersionsMap) (sources : List Str) :
    Except Err Unit × Option VersionsMap × List Eff :=
  let versions := disk.getD []
  match processSources remote dir versions sources with
  | (.error e, effs) => (.error e, disk, effs)
  | (.ok vs, effs) => (.ok (), some vs, effs ++ [.saveStore vs])

/-! ## Orchestrator pieces present only in the spec -/

/-- Modelled from the spec: the orchestrator step that consumes github.rs
`get`'s `Option<VersionInfo>` result is in the crate-root main.rs that
github.rs compiles against, which is absent from src (the main.rs in src
predates github.rs).  Spec sections 4.5 and 3: on "no artifact" (and on
"already up to date") the source is left untouched in the store; after an
installation the store entry for the source is set to the new watermark. -/
def orchestratorStep (versions : VersionsMap) (source : Str) : Option VersionInfo → VersionsMap
  | none => versions
  | some info => insertV versions source info.watermark

/-- Modelled from the spec: the `--clear` flag handling is likewise absent
from the main.rs snapshot in src.  Spec section 6: the positional arguments
are the ones before the `--` separator; `--clear` may appear anywhere among
them, independent of ordering, and is not itself a source. -/
def parseClear (args : List Str) : List Str × Bool :=
  let positionals := args.takeWhile (fun a => a != ("--").data)
  (positionals.filter (fun a => a != ("--clear").data),
   positionals.contains (("--clear").data))

/-- Modelled from the spec: the run entry point with `--clear` support (spec
sections 3, 4.4 and 6): when the flag is set the loaded watermark store is
wiped before any descriptor is processed; the rest is src's `async_main`. -/
def runWithArgs (remote : Remote) (dir : Str) (disk : Option VersionsMap) (args : List Str) :
    Except Err Unit × Option VersionsMap × List Eff :=
  let (sources, clear) := parseClear args
  let initial : Option VersionsMap := if clear then some [] else disk
  let versions := initial.getD []
  match processSources remote dir versions sources with
  | (.error e, effs) => (.error e, disk, effs)
  | (.ok vs, effs) => (.ok (), some vs, effs ++ [.saveStore vs])

/-! ## Characterization of the extraction loop -/

/-- What one snapshotted entry name contributes to the writes: nothing unless
its extension is the marker extension and a base name is derivable; otherwise
one write of the named entry's data to the base name inside `dir`. -/
def writeFor (dir : Str) (entries : List ZipEntry) (n : Str) : Option FileWrite :=
  if pathExtension n = some markerExt then
    (pathFileName n).map (fun base =>
      ⟨dir ++ '/' :: base, ((byName entries n).map (fun e => e.data)).getD []⟩)
  else none

/-- The writes the extraction phase performs, per entry name in archive
order. -/
def expectedWrites (dir : Str) (entries : List ZipEntry) : List FileWrite :=
  (entries.map (fun e => e.name)).filterMap (writeFor dir entries)

/-! ## Helper lemmas -/
theorem no_saveStore_get_github (remote : Remote) (dir value : Str) (existing : Option Str)
    (vs : VersionsMap) : Eff.saveStore vs ∉ (get_github remote dir value existing).2 := by
  unfold get_github
  cases h1 : remote.releasesAt (mainReleasesUrl value) with
  | error e => simp [h1]
  | ok releases =>
    cases releases with
    | nil => simp [h1]
    | cons release tail =>
      by_cases h2 : existing = some release.tag_name
      · simp [h1, h2]
      · cases h3 : remote.downloadAt release.zipball_url with
        | error e => simp [h1, h2, h3]
        | ok entries =>
          cases h4 : (installFilters dir entries).2 with
          | error e => simp [h1, h2, h3, h4, List.mem_map]
          | ok u => simp [h1, h2, h3, h4, List.mem_map]

theorem splitAtFirst_eq_none {c : Char} : ∀ {l : Str}, splitAtFirst c l = none ↔ c ∉ l := by
  intro l
  induction l with
  | nil => simp [splitAtFirst]
  | cons x xs ih =>
    by_cases hx : x = c
    · subst hx
      simp [splitAtFirst]
    · cases hsp : splitAtFirst c xs with
      | none =>
        have hns : c ∉ xs := ih.mp hsp
        simp [splitAtFirst, if_neg hx, hsp, hns, Ne.symm hx]
      | some p =>
        have hcx : c ∈ xs := by
          by_contra hc
          rw [ih.mpr hc] at hsp
          cases hsp
        simp [splitAtFirst, if_neg hx, hsp, hcx]

theorem splitAtFirst_eq_some {c : Char} :
    ∀ {l a b : Str}, splitAtFirst c l = some (a, b) → l = a ++ c :: b ∧ c ∉ a := by
  intro l
  induction l with
  | nil => intro a b h; simp [splitAtFirst] at h
  | cons x xs ih =>
    intro a b h
    by_cases hx : x = c
    · subst hx
      unfold splitAtFirst at h
      rw [if_pos rfl] at h
      injection h with h
      rw [Prod.mk.injEq] at h
      obtain ⟨rfl, rfl⟩ := h
      simp
    · unfold splitAtFirst at h
      rw [if_neg hx] at h
      cases hsp : splitAtFirst c xs with
      | none => rw [hsp] at h; cases h
      | some p =>
        rw [hsp] at h
        simp only [Option.map_some', Option.some.injEq, Prod.mk.injEq] at h
        obtain ⟨h1, h2⟩ := h
        obtain ⟨hl, hni⟩ := ih hsp
        rcases p with ⟨a', b'⟩
        simp only at h1 h2
        subst h2
        rw [← h1]
        constructor
        · simp [hl]
        · simp only [List.mem_cons, not_or]
          exact ⟨Ne.symm hx, hni⟩


theorem pathFileName_isSome_of_ext {n e : Str} (h : pathExtension n = some e) :
    ∃ base, pathFileName n = some base := by
  unfold pathExtension at h
  cases hf : pathFileName n with
  | none => rw [hf] at h; cases h
  | some base => exact ⟨base, rfl⟩

theorem byName_isSome_of_mem {entries : List ZipEntry} {n : Str}
    (h : n ∈ entries.map (fun e => e.name)) : ∃ e, byName entries n = some e := by
  rcases List.mem_map.mp h with ⟨e, he, hn⟩
  have hs : (byName entries n).isSome := by
    unfold byName
    rw [List.find?_isSome]
    exact ⟨e, he, by simp [hn]⟩
  cases hb : byName entries n with
  | none => rw [hb] at hs; cases hs
  | some e' => exact ⟨e', rfl⟩

theorem installFromNames_eq (dir : Str) (entries : List ZipEntry) :
    ∀ names : List Str, (∀ n ∈ names, n ∈ entries.map (fun e => e.name)) →
      installFromNames dir entries names =
        (names.filterMap (writeFor dir entries), Except.ok ()) := by
  intro names
  induction names with
  | nil => intro _; simp [installFromNames]
  | cons n rest ih =>
    intro h
    have hrest := ih (fun m hm => h m (List.mem_cons_of_mem n hm))
    by_cases hext : pathExtension n = some markerExt
    · rcases byName_isSome_of_mem (h n (List.mem_cons_self n rest)) with ⟨e, hb⟩
      rcases pathFileName_isSome_of_ext hext with ⟨base, hbase⟩
      simp [installFromNames, hext, hb, hbase, hrest, List.filterMap_cons, writeFor]
    · simp [installFromNames, hext, hrest, List.filterMap_cons, writeFor]


theorem no_saveStore_processSource (remote : Remote) (dir : Str) (versions : VersionsMap)
    (source : Str) (vs : VersionsMap) :
    Eff.saveStore vs ∉ (processSource remote dir versions source).2 := by
  unfold processSource
  cases hsp : splitAtFirst ':' (expandAlias source) with
  | none => simp [hsp]
  | some p =>
    rcases p with ⟨sourceName, value⟩
    by_cases hgh : sourceName = ("github").data
    · have hng := no_saveStore_get_github remote dir value
        (lookupV versions (expandAlias source)) vs
      cases hg : get_github remote dir value (lookupV versions (expandAlias source)) with
      | mk r effs =>
        rw [hg] at hng
        cases r with
        | error e => simp [hsp, hgh, hg]; simpa using hng
        | ok next => simp [hsp, hgh, hg]; simpa using hng
    · simp [hsp, hgh]

theorem no_saveStore_processSources (remote : Remote) (dir : Str) (vs : VersionsMap) :
    ∀ (sources : List Str) (versions : VersionsMap),
      Eff.saveStore vs ∉ (processSources remote dir versions sources).2 := by
  intro sources
  induction sources with
  | nil => intro versions; simp [processSources]
  | cons s rest ih =>
    intro versions
    unfold processSources
    have hs := no_saveStore_processSource remote dir versions s vs
    cases hps : processSource remote dir versions s with
    | mk r effs =>
      rw [hps] at hs
      cases r with
      | error e => simpa using hs
      | ok vsn =>
        simp only [List.mem_append]
        intro hc
        rcases hc with hc | hc
        · exact hs hc
        · exact ih vsn hc

theorem resolveValue_effs (remote : Remote) (value : Str) :
    (resolveValue remote value).2 = [] ∨ ∃ u, (resolveValue remote value).2 = [.httpGet u] := by
  unfold resolveValue
  cases hs : split value '/' with
  | nil => simp [hs]
  | cons a t =>
    cases t with
    | nil => simp [hs]
    | cons b t2 =>
      cases t2 with
      | nil =>
        unfold get_github_release
        cases hr : remote.releasesAt (releasesUrl a b) with
        | error e => right; exact ⟨releasesUrl a b, by simp [hs, hr]⟩
        | ok releases => cases releases with
          | nil => right; exact ⟨releasesUrl a b, by simp [hs, hr]⟩
          | cons r _ => right; exact ⟨releasesUrl a b, by simp [hs, hr]⟩
      | cons c t3 =>
        cases t3 with
        | nil =>
          unfold get_github_branch
          cases hb : remote.branchAt (branchUrl a b c) with
          | error e => right; exact ⟨branchUrl a b c, by simp [hs, hb]⟩
          | ok info => right; exact ⟨branchUrl a b c, by simp [hs, hb]⟩
        | cons d t4 => simp [hs]

theorem no_writeFile_resolveValue (remote : Remote) (value p : Str) (dat : Bytes) :
    Eff.writeFile p dat ∉ (resolveValue remote value).2 := by
  rcases resolveValue_effs remote value with h | ⟨u, h⟩ <;> rw [h] <;> simp

theorem get_upToDate (remote : Remote) (dir value : Str) (info : VersionInfo) (effs : List Eff)
    (hres : resolveValue remote value = (.ok (some info), effs)) :
    get remote dir value (some info.watermark) = (.ok none, effs) := by
  unfold get
  simp [hres]

theorem get_noArtifact (remote : Remote) (dir value owner repo : Str) (existing : Option Str)
    (hsplit : split value '/' = [owner, repo])
    (hrel : remote.releasesAt (releasesUrl owner repo) = .ok []) :
    get remote dir value existing = (.ok none, [.httpGet (releasesUrl owner repo)]) := by
  have hres : resolveValue remote value = (.ok none, [.httpGet (releasesUrl owner repo)]) := by
    unfold resolveValue get_github_release
    simp [hsplit, hrel]
  unfold get
  simp [hres]

theorem download_in_get_github_trace (remote : Remote) (dir value : Str) (r : ReleaseInfo)
    (rest : List ReleaseInfo)
    (hrel : remote.releasesAt (mainReleasesUrl value) = .ok (r :: rest)) :
    Eff.httpGet r.zipball_url ∈ (get_github remote dir value none).2 := by
  unfold get_github
  cases hd : remote.downloadAt r.zipball_url with
  | error e => simp [hrel, hd]
  | ok entries =>
    cases hi : (installFilters dir entries).2 with
    | error e => simp [hrel, hd, hi]
    | ok u => simp [hrel, hd, hi]

theorem filterMap_writeFor_length (dir : Str) (entries : List ZipEntry) :
    ∀ names : List Str,
      (names.filterMap (writeFor dir entries)).length =
        (names.filter (fun n => pathExtension n == some markerExt)).length := by
  intro names
  induction names with
  | nil => simp
  | cons n rest ih =>
    by_cases hext : pathExtension n = some markerExt
    · rcases pathFileName_isSome_of_ext hext with ⟨base, hbase⟩
      simp [List.filterMap_cons, List.filter_cons, writeFor, hext, hbase, ih]
    · simp [List.filterMap_cons, List.filter_cons, writeFor, hext, ih]

/-! ## Claims -/

/-- C1: if processing any source returns an error, `async_main` returns with
the on-disk state file exactly as it was before the run (earlier sources'
in-memory updates are discarded) and the effect trace contains no store save:
the save happens only after every source has been processed successfully. -/
theorem c1_fail_fast_no_save (remote : Remote) (dir : Str) (disk : Option VersionsMap)
    (sources : List Str) (e : Err) (disk2 : Option VersionsMap) (effs : List Eff)
    (h : async_main remote dir disk sources = (.error e, disk2, effs)) :
    disk2 = disk ∧ ∀ vs, Eff.saveStore vs ∉ effs := by
  have hns := no_saveStore_processSources remote dir
  simp only [async_main] at h
  cases hps : processSources remote dir (disk.getD []) sources with
  | mk r effs2 =>
    rw [hps] at h
    cases r with
    | error e2 =>
      simp only [Prod.mk.injEq] at h
      obtain ⟨_, hd, hf⟩ := h
      subst hd
      subst hf
      refine ⟨rfl, ?_⟩
      intro vs
      have := hns vs sources (disk.getD [])
      rw [hps] at this
      exact this
    | ok vs => simp at h

/-- C2: watermark gating.  When github.rs `get`'s resolution phase yields a
record whose watermark equals the stored one, `get` returns `Ok(None)` with
the trace of the resolution alone — no zipball download, no extraction, no
file write (the trace contains no write effect at all); conversely an
installation (`Ok(Some _)`) happens only when no watermark is stored or the
stored one differs.  The same gate in main.rs `get_github` (lines 172-175)
likewise returns before any download. -/
theorem c2_watermark_gating (remote : Remote) (dir value : Str) (stored : Option Str) :
    (∀ info effs, resolveValue remote value = (.ok (some info), effs) →
        stored = some info.watermark →
          get remote dir value stored = (.ok none, effs) ∧
          ∀ p dat, Eff.writeFile p dat ∉ effs) ∧
    (∀ info, (get remote dir value stored).1 = .ok (some info) →
        stored ≠ some info.watermark) ∧
    (∀ r rest, remote.releasesAt (mainReleasesUrl value) = .ok (r :: rest) →
        stored = some r.tag_name →
          get_github remote dir value stored =
            (.ok r.tag_name, [.httpGet (mainReleasesUrl value)])) := by
  refine ⟨?_, ?_, ?_⟩
  · intro info effs hres hst
    subst hst
    refine ⟨get_upToDate remote dir value info effs hres, ?_⟩
    intro p dat
    have := no_writeFile_resolveValue remote value p dat
    rw [hres] at this
    exact this
  · intro info hinfo
    unfold get at hinfo
    cases hres : resolveValue remote value with
    | mk r effs =>
      rw [hres] at hinfo
      cases r with
      | error e2 => simp at hinfo
      | ok o =>
        cases o with
        | none => simp at hinfo
        | some release =>
          by_cases hc : stored = some release.watermark
          · simp [hc] at hinfo
          · simp only [if_neg hc] at hinfo
            cases hd : remote.downloadAt release.zipball_url with
            | error e2 => rw [hd] at hinfo; simp at hinfo
            | ok entries =>
              rw [hd] at hinfo
              cases hi : (installFilters dir entries).2 with
              | error e2 => simp [hi] at hinfo
              | ok u =>
                simp [hi] at hinfo
                rw [← hinfo]
                exact hc
  · intro r rest hrel hst
    unfold get_github
    simp [hrel, hst]

/-- C3: a remote answer of zero releases is not an error: release-strategy
resolution succeeds with "no artifact" (`Ok(None)`), github.rs `get` passes it
through, and the orchestrator leaves the source untouched in the watermark
store. -/
theorem c3_empty_release_list (remote : Remote) (dir value owner repo source : Str)
    (versions : VersionsMap) (existing : Option Str)
    (hsplit : split value '/' = [owner, repo])
    (hrel : remote.releasesAt (releasesUrl owner repo) = .ok []) :
    get_github_release remote owner repo = (.ok none, [.httpGet (releasesUrl owner repo)]) ∧
    get remote dir value existing = (.ok none, [.httpGet (releasesUrl owner repo)]) ∧
    orchestratorStep versions source none = versions := by
  refine ⟨?_, get_noArtifact remote dir value owner repo existing hsplit hrel, rfl⟩
  unfold get_github_release
  simp [hrel]

/-- C4: the Version Resolver performs no comparison against prior state: the
resolution phase of github.rs `get` is `resolveValue`, a function of the
remote and the payload only, and its trace opens `get`'s trace for every
stored watermark (resolution always runs, unchanged or not); on success it
returns the current remote record — zipball URL, tag name and body for the
release strategy, computed archive URL, head commit sha and commit message
for the branch strategy. -/
theorem c4_resolver_no_comparison (remote : Remote) (dir value : Str) (stored : Option Str) :
    (∃ t, (get remote dir value stored).2 = (resolveValue remote value).2 ++ t) ∧
    (∀ owner repo r rest, split value '/' = [owner, repo] →
        remote.releasesAt (releasesUrl owner repo) = .ok (r :: rest) →
          resolveValue remote value =
            (.ok (some ⟨r.zipball_url, r.tag_name, r.body⟩),
              [.httpGet (releasesUrl owner repo)])) ∧
    (∀ owner repo branch info, split value '/' = [owner, repo, branch] →
        remote.branchAt (branchUrl owner repo branch) = .ok info →
          resolveValue remote value =
            (.ok (some ⟨archiveUrl owner repo info.commit.sha, info.commit.sha,
                some info.commit.commit.message⟩),
              [.httpGet (branchUrl owner repo branch)])) := by
  refine ⟨?_, ?_, ?_⟩
  · unfold get
    cases hres : resolveValue remote value with
    | mk r effs =>
      cases r with
      | error e => exact ⟨[], by simp [hres]⟩
      | ok o =>
        cases o with
        | none => exact ⟨[], by simp [hres]⟩
        | some release =>
          by_cases hc : stored = some release.watermark
          · exact ⟨[], by simp [hres, hc]⟩
          · cases hd : remote.downloadAt release.zipball_url with
            | error e => exact ⟨[.httpGet release.zipball_url], by simp [hres, hc, hd]⟩
            | ok entries =>
              cases hi : (installFilters dir entries).2 with
              | error e =>
                exact ⟨.httpGet release.zipball_url ::
                  (installFilters dir entries).1.map (fun w => Eff.writeFile w.path w.data),
                  by simp [hres, hc, hd, hi]⟩
              | ok u =>
                exact ⟨.httpGet release.zipball_url ::
                  (installFilters dir entries).1.map (fun w => Eff.writeFile w.path w.data),
                  by simp [hres, hc, hd, hi]⟩
  · intro owner repo r rest hsplit hrel
    unfold resolveValue get_github_release
    simp [hsplit, hrel]
  · intro owner repo branch info hsplit hbr
    unfold resolveValue get_github_branch
    simp [hsplit, hbr]

/-- C5: with `--clear` anywhere among the positional arguments the run's
result and effect trace are those of a run whose on-disk store is absent
(the store is emptied before any descriptor is processed), and for a run on
one github source whose resolution succeeds, the trace contains the zipball
download — installation proceeds even when the disk stored exactly the
resolved watermark. -/
theorem c5_clear_forces_reinstall (remote : Remote) (dir : Str) (disk : Option VersionsMap)
    (args : List Str) (h : (parseClear args).2 = true) :
    ((runWithArgs remote dir disk args).1 = (runWithArgs remote dir none args).1 ∧
     (runWithArgs remote dir disk args).2.2 = (runWithArgs remote dir none args).2.2) ∧
    (∀ source value r rest,
        (parseClear args).1 = [source] →
        splitAtFirst ':' (expandAlias source) = some ((("github").data), value) →
        remote.releasesAt (mainReleasesUrl value) = .ok (r :: rest) →
          Eff.httpGet r.zipball_url ∈ (runWithArgs remote dir disk args).2.2) := by
  cases hpc : parseClear args with
  | mk sources clear =>
    rw [hpc] at h
    simp only at h
    subst h
    have hrun : ∀ d : Option VersionsMap, runWithArgs remote dir d args =
        (match processSources remote dir [] sources with
         | (.error e, effs) => (.error e, d, effs)
         | (.ok vs, effs) => (.ok (), some vs, effs ++ [.saveStore vs])) := by
      intro d
      unfold runWithArgs
      rw [hpc]
      simp
    constructor
    · rw [hrun disk, hrun none]
      cases hps : processSources remote dir [] sources with
      | mk r effs => cases r <;> simp
    · intro source value r rest hsrc hdesc hrel
      simp only at hsrc
      subst hsrc
      have hmem : Eff.httpGet r.zipball_url ∈ (processSources remote dir [] [source]).2 := by
        unfold processSources processSource
        simp only []
        rw [hdesc]
        have hlook : lookupV ([] : VersionsMap) (expandAlias source) = none := rfl
        have hdl := download_in_get_github_trace remote dir value r rest hrel
        cases hget : get_github remote dir value none with
        | mk gr geffs =>
          rw [hget] at hdl
          cases gr with
          | error e => simpa [hlook, hget] using hdl
          | ok next => simpa [hlook, hget, processSources] using hdl
      rw [hrun disk]
      cases hps : processSources remote dir [] [source] with
      | mk r2 effs =>
        rw [hps] at hmem
        cases r2 with
        | error e => simpa using hmem
        | ok vs => simp only []; simpa using hmem

/-- C6: the extraction phase writes exactly the archive entries whose file
extension is the marker extension "filter": the writes are characterized per
snapshotted entry name (the destination is the entry's base name joined to
the target directory, internal directory structure discarded, the write
created-or-truncated), their number equals the number of matching entries,
the loop never fails, and a name without a derivable base name is skipped
rather than treated as a fatal error. -/
theorem c6_extraction_filter (dir : Str) (entries : List ZipEntry) :
    installFilters dir entries = (expectedWrites dir entries, Except.ok ()) ∧
    (installFilters dir entries).1.length =
      (entries.filter (fun e => pathExtension e.name == some markerExt)).length ∧
    (∀ n rest, pathFileName n = none →
        installFromNames dir entries (n :: rest) = installFromNames dir entries rest) := by
  have hmain : installFilters dir entries = (expectedWrites dir entries, Except.ok ()) := by
    unfold installFilters expectedWrites
    exact installFromNames_eq dir entries (entries.map (fun e => e.name)) (fun n hn => hn)
  refine ⟨hmain, ?_, ?_⟩
  · rw [hmain]
    unfold expectedWrites
    rw [filterMap_writeFor_length dir entries (entries.map (fun e => e.name))]
    rw [List.filter_map]
    rw [List.length_map]
    rfl
  · intro n rest hbase
    have hext : pathExtension n = none := by
      unfold pathExtension
      rw [hbase]
      rfl
    have hne : ¬ pathExtension n = some markerExt := by
      rw [hext]; intro hc; cases hc
    conv_lhs => rw [installFromNames]
    rw [if_neg hne]

/-- C7: for an `owner/repo/branch` payload the branch strategy returns a
record whose watermark is the branch's head commit sha, whose download URL is
the computed archive URL for that exact commit, and whose note is the commit
message; the branch endpoint answering with an error (e.g. a 404 for an
absent branch) is propagated as a hard error, never as the "no artifact"
success. -/
theorem c7_branch_strategy (remote : Remote) (owner repo branch : Str) :
    (∀ info, remote.branchAt (branchUrl owner repo branch) = .ok info →
        get_github_branch remote owner repo branch =
          (.ok (some ⟨archiveUrl owner repo info.commit.sha, info.commit.sha,
              some info.commit.commit.message⟩),
            [.httpGet (branchUrl owner repo branch)])) ∧
    (∀ e, remote.branchAt (branchUrl owner repo branch) = .error e →
        get_github_branch remote owner repo branch =
          (.error e, [.httpGet (branchUrl owner repo branch)]) ∧
        (get_github_branch remote owner repo branch).1 ≠ .ok none) := by
  constructor
  · intro info hbr
    unfold get_github_branch
    simp [hbr]
  · intro e hbr
    have h : get_github_branch remote owner repo branch =
        (.error e, [.httpGet (branchUrl owner repo branch)]) := by
      unfold get_github_branch
      simp [hbr]
    refine ⟨h, ?_⟩
    rw [h]
    intro hc
    cases hc

/-- C8, counterexample: the claim demands that parsing reject any canonical
descriptor not containing exactly one ':', but the code splits at the first
':' and accepts this input containing two of them. -/
theorem c8_counterexample :
    parseDescriptor (("github:a/b:c").data) =
      some ((("github").data), (("a/b:c").data)) ∧
    (("github:a/b:c").data).count ':' = 2 := by decide

/-- C8, amended: descriptor parsing requires the canonical (alias-expanded)
form to contain at least one ':': an input whose canonical form has no ':'
fails with the user-input error before any network call (the per-source step
performs no effect), and every accepted input is split at the first ':'
occurrence (the type part contains no ':'). -/
theorem c8_amended_split_at_first_colon (s t p : Str) :
    ((':') ∉ expandAlias s →
        parseDescriptor s = none ∧
        ∀ remote dir versions,
          processSource remote dir versions s = (.error .malformedSource, [])) ∧
    (parseDescriptor s = some (t, p) →
        expandAlias s = t ++ (':') :: p ∧ (':') ∉ t) := by
  constructor
  · intro hno
    have hsplit : splitAtFirst ':' (expandAlias s) = none := splitAtFirst_eq_none.mpr hno
    refine ⟨hsplit, ?_⟩
    intro remote dir versions
    unfold processSource
    simp only []
    rw [hsplit]
  · intro hp
    exact splitAtFirst_eq_some hp

/-- C9: a github payload with a '/'-separated segment count other than 2 or 3
makes github.rs `get` fail with the malformed-descriptor error and an empty
effect trace — no network request was made. -/
theorem c9_malformed_payload (remote : Remote) (dir value : Str) (existing : Option Str)
    (h2 : (split value '/').length ≠ 2) (h3 : (split value '/').length ≠ 3) :
    get remote dir value existing = (.error .malformedDescriptor, []) := by
  have hres : resolveValue remote value = (.error .malformedDescriptor, []) := by
    unfold resolveValue
    cases hs : split value '/' with
    | nil => simp
    | cons a t =>
      cases t with
      | nil => simp
      | cons b t2 =>
        cases t2 with
        | nil => rw [hs] at h2; simp at h2
        | cons c t3 =>
          cases t3 with
          | nil => rw [hs] at h3; simp at h3
          | cons d t4 => simp
  unfold get
  simp [hres]

/-- C10: github.rs `get` returns the same value, `Ok(None)`, both when the
release list is empty and when the stored watermark equals the freshly
resolved one, so the caller cannot distinguish "no artifact exists" from
"already up to date" from the return value, and in the up-to-date case no
fresh watermark is returned. -/
theorem c10_ok_none_ambiguity (remoteA remoteB : Remote) (dirA dirB valueA valueB owner repo : Str)
    (existingA : Option Str) (info : VersionInfo) (effs : List Eff)
    (h1 : split valueA '/' = [owner, repo])
    (h2 : remoteA.releasesAt (releasesUrl owner repo) = .ok [])
    (h3 : resolveValue remoteB valueB = (.ok (some info), effs)) :
    (get remoteA dirA valueA existingA).1 = .ok none ∧
    (get remoteB dirB valueB (some info.watermark)).1 = .ok none ∧
    (get remoteA dirA valueA existingA).1 =
      (get remoteB dirB valueB (some info.watermark)).1 := by
  have ha := get_noArtifact remoteA dirA valueA owner repo existingA h1 h2
  have hb := get_upToDate remoteB dirB valueB info effs h3
  rw [ha, hb]
  exact ⟨rfl, rfl, rfl⟩

/-! ## Concrete witnesses -/

/-- Release served by the demo remote. -/
def demoRelease : ReleaseInfo := ⟨("zipA").data, ("v1").data, none⟩

/-- Branch served by the demo remote. -/
def demoBranch : BranchInfo := ⟨⟨("abc").data, ⟨("hello").data⟩⟩⟩

/-- Archive served by the demo remote: five entries, two with the marker
extension. -/
def demoEntries : List ZipEntry :=
  [⟨("repo-1/a.filter").data, [1]⟩,
   ⟨("repo-1/sub/b.filter").data, [2]⟩,
   ⟨("repo-1/readme.md").data, [3]⟩,
   ⟨("repo-1/c.txt").data, [4]⟩,
   ⟨("repo-1/sub/").data, []⟩]

/-- A concrete remote: `o/r` has one release (zipball `zipA`), `e/m` has an
empty release list, branch `main` of `o/r` exists, everything else answers
with an HTTP error. -/
def demoRemote : Remote where
  releasesAt := fun url =>
    if url = releasesUrl (("o").data) (("r").data) then .ok [demoRelease]
    else if url = releasesUrl (("e").data) (("m").data) then .ok []
    else .error (.httpStatus 500)
  branchAt := fun url =>
    if url = branchUrl (("o").data) (("r").data) (("main").data) then .ok demoBranch
    else .error (.httpStatus 404)
  downloadAt := fun url =>
    if url = ("zipA").data then .ok demoEntries else .error (.httpStatus 500)

/-- The effect trace of the failing demo run behind `c1_fail_fast_no_save`:
the first source resolves, downloads and writes two filter files, the second
source fails resolution. -/
def demoFailEffs : List Eff :=
  [Eff.httpGet (releasesUrl (("o").data) (("r").data)),
   Eff.httpGet (("zipA").data),
   Eff.writeFile (("D/a.filter").data) [1],
   Eff.writeFile (("D/b.filter").data) [2],
   Eff.httpGet (mainReleasesUrl (("b/two").data))]

/-- C1 witness: source 2 of 2 fails; the disk store is unchanged and no save
effect occurs. -/
theorem c1_fail_fast_no_save_witness :
    (some [((("github:o/r").data), (("v0").data))] : Option VersionsMap) =
      some [((("github:o/r").data), (("v0").data))] ∧
    ∀ vs, Eff.saveStore vs ∉ demoFailEffs :=
  c1_fail_fast_no_save demoRemote (("D").data)
    (some [((("github:o/r").data), (("v0").data))])
    [(("github:o/r").data), (("github:b/two").data)]
    (.httpStatus 500) (some [((("github:o/r").data), (("v0").data))])
    demoFailEffs (by decide)

/-- C2 witness: stored watermark `v1` equals the resolved one; `get` returns
`Ok(None)` after the resolution request only, with no write in the trace, and
main.rs `get_github` likewise stops after the resolution request. -/
theorem c2_watermark_gating_witness :
    (get demoRemote (("D").data) (("o/r").data) (some (("v1").data)) =
        (.ok none, [Eff.httpGet (releasesUrl (("o").data) (("r").data))]) ∧
      ∀ p dat, Eff.writeFile p dat ∉
        [Eff.httpGet (releasesUrl (("o").data) (("r").data))]) ∧
    get_github demoRemote (("D").data) (("o/r").data) (some (("v1").data)) =
      (.ok (("v1").data), [Eff.httpGet (mainReleasesUrl (("o/r").data))]) :=
  ⟨(c2_watermark_gating demoRemote (("D").data) (("o/r").data) (some (("v1").data))).1
      ⟨("zipA").data, ("v1").data, none⟩
      [Eff.httpGet (releasesUrl (("o").data) (("r").data))] (by decide) (by decide),
   (c2_watermark_gating demoRemote (("D").data) (("o/r").data) (some (("v1").data))).2.2
      demoRelease [] (by decide) (by decide)⟩

/-- C3 witness: `e/m` has zero releases; resolution succeeds with no
artifact, `get` succeeds with `Ok(None)`, and the orchestrator leaves the
store untouched. -/
theorem c3_empty_release_list_witness :
    get_github_release demoRemote (("e").data) (("m").data) =
      (.ok none, [Eff.httpGet (releasesUrl (("e").data) (("m").data))]) ∧
    get demoRemote (("D").data) (("e/m").data) none =
      (.ok none, [Eff.httpGet (releasesUrl (("e").data) (("m").data))]) ∧
    orchestratorStep [((("k").data), (("w").data))] (("github:e/m").data) none =
      [((("k").data), (("w").data))] :=
  c3_empty_release_list demoRemote (("D").data) (("e/m").data) (("e").data) (("m").data)
    (("github:e/m").data) [((("k").data), (("w").data))] none (by decide) (by decide)

/-- C4 witness: the resolution phase returns the current remote record for
both strategies, independently of any stored watermark, and opens `get`'s
trace. -/
theorem c4_resolver_no_comparison_witness :
    (∃ t, (get demoRemote (("D").data) (("o/r").data) (some (("v1").data))).2 =
        (resolveValue demoRemote (("o/r").data)).2 ++ t) ∧
    resolveValue demoRemote (("o/r").data) =
      (.ok (some ⟨("zipA").data, ("v1").data, none⟩),
        [Eff.httpGet (releasesUrl (("o").data) (("r").data))]) ∧
    resolveValue demoRemote (("o/r/main").data) =
      (.ok (some ⟨archiveUrl (("o").data) (("r").data) (("abc").data), ("abc").data,
          some (("hello").data)⟩),
        [Eff.httpGet (branchUrl (("o").data) (("r").data) (("main").data))]) :=
  ⟨(c4_resolver_no_comparison demoRemote (("D").data) (("o/r").data) (some (("v1").data))).1,
   (c4_resolver_no_comparison demoRemote (("D").data) (("o/r").data) (some (("v1").data))).2.1
      (("o").data) (("r").data) demoRelease [] (by decide) (by decide),
   (c4_resolver_no_comparison demoRemote (("D").data) (("o/r/main").data) none).2.2
      (("o").data) (("r").data) (("main").data) demoBranch (by decide) (by decide)⟩

/-- C5 witness: with `--clear` among the arguments and a disk store holding
exactly the remote watermark `v1`, the run still downloads the zipball. -/
theorem c5_clear_forces_reinstall_witness :
    Eff.httpGet (("zipA").data) ∈
      (runWithArgs demoRemote (("D").data)
        (some [((("github:o/r").data), (("v1").data))])
        [(("github:o/r").data), (("--clear").data)]).2.2 :=
  (c5_clear_forces_reinstall demoRemote (("D").data)
      (some [((("github:o/r").data), (("v1").data))])
      [(("github:o/r").data), (("--clear").data)] (by decide)).2
    (("github:o/r").data) (("o/r").data) demoRelease [] (by decide) (by decide) (by decide)

/-- C6 witness: an entry name without a derivable base name (`..`) is skipped
by the loop, not fatal. -/
theorem c6_extraction_filter_witness :
    installFromNames (("D").data) demoEntries ((("..").data) :: [(("x.filter").data)]) =
      installFromNames (("D").data) demoEntries [(("x.filter").data)] :=
  (c6_extraction_filter (("D").data) demoEntries).2.2 (("..").data) [(("x.filter").data)]
    (by decide)

/-- C7 witness: branch `main` of `o/r` resolves to sha `abc`, archive URL and
commit message; the absent branch `nope` is a propagated hard error, not
`Ok(None)`. -/
theorem c7_branch_strategy_witness :
    get_github_branch demoRemote (("o").data) (("r").data) (("main").data) =
      (.ok (some ⟨archiveUrl (("o").data) (("r").data) (("abc").data), ("abc").data,
          some (("hello").data)⟩),
        [Eff.httpGet (branchUrl (("o").data) (("r").data) (("main").data))]) ∧
    (get_github_branch demoRemote (("o").data) (("r").data) (("nope").data) =
        (.error (.httpStatus 404),
          [Eff.httpGet (branchUrl (("o").data) (("r").data) (("nope").data))]) ∧
      (get_github_branch demoRemote (("o").data) (("r").data) (("nope").data)).1 ≠
        .ok none) :=
  ⟨(c7_branch_strategy demoRemote (("o").data) (("r").data) (("main").data)).1
      demoBranch (by decide),
   (c7_branch_strategy demoRemote (("o").data) (("r").data) (("nope").data)).2
      (.httpStatus 404) (by decide)⟩

/-- C8 witness (amended claim): an input with no ':' fails with no effect;
the accepted input `github:a/b:c` is split at its first ':'. -/
theorem c8_amended_witness :
    (parseDescriptor (("nocolon").data) = none ∧
      ∀ remote dir versions,
        processSource remote dir versions (("nocolon").data) =
          (.error .malformedSource, [])) ∧
    (expandAlias (("github:a/b:c").data) =
        (("github").data) ++ (':') :: (("a/b:c").data) ∧
      (':') ∉ (("github").data)) :=
  ⟨(c8_amended_split_at_first_colon (("nocolon").data) [] []).1 (by decide),
   (c8_amended_split_at_first_colon (("github:a/b:c").data) (("github").data)
      (("a/b:c").data)).2 (by decide)⟩

/-- C9 witness: a four-segment payload is rejected before any request. -/
theorem c9_malformed_payload_witness :
    get demoRemote (("D").data) (("a/b/c/d").data) none = (.error .malformedDescriptor, []) :=
  c9_malformed_payload demoRemote (("D").data) (("a/b/c/d").data) none (by decide) (by decide)

/-- C10 witness: `get` on the zero-release repository `e/m` and `get` on the
up-to-date `o/r` both return exactly `Ok(None)`. -/
theorem c10_ok_none_ambiguity_witness :
    (get demoRemote (("D").data) (("e/m").data) none).1 = .ok none ∧
    (get demoRemote (("D").data) (("o/r").data) (some (("v1").data))).1 = .ok none ∧
    (get demoRemote (("D").data) (("e/m").data) none).1 =
      (get demoRemote (("D").data) (("o/r").data) (some (("v1").data))).1 :=
  c10_ok_none_ambiguity demoRemote demoRemote (("D").data) (("D").data) (("e/m").data)
    (("o/r").data) (("e").data) (("m").data) none ⟨("zipA").data, ("v1").data, none⟩
    [Eff.httpGet (releasesUrl (("o").data) (("r").data))] (by decide) (by decide) (by decide)

end Poe2Filter
